import Mathlib

/-!
Verification of `src/move_files.py`: a script that moves a list of files
from a source folder to a destination folder.

The filesystem is modelled as a finite collection of file paths and
directory paths (lists of strings, membership up to `∈`).  The Python
path primitives `os.path.join` and `os.path.dirname` are embedded over
`String` following POSIX (`posixpath`) semantics, which is what the
script relies on (hard-coded absolute POSIX paths).
-/

namespace MoveFilesPy

/-- Whether a POSIX path string begins with the separator `/`
(i.e. is an absolute path). -/
def beginsWithSep (p : String) : Bool :=
  match p.data with
  | [] => false
  | c :: _ => c = '/'

/-- Whether a POSIX path string ends with the separator `/`. -/
def endsWithSep (p : String) : Bool :=
  match p.data.getLast? with
  | none => false
  | some c => c = '/'

/-- POSIX `os.path.join` for two components, as used at
`src/move_files.py` lines 15-16: if the second component is absolute it
replaces the first; otherwise they are glued with a single `/` unless
the first already ends in `/` or is empty. -/
def osPathJoin (a b : String) : String :=
  if beginsWithSep b then b
  else if a = "" then a ++ b
  else if endsWithSep a then a ++ b
  else a ++ "/" ++ b

/-- `os.path.dirname` on the character list of a POSIX path: everything
up to the last `/`, with trailing slashes stripped from the head unless
the head consists only of slashes. -/
def dirnameList (cs : List Char) : List Char :=
  match cs.reverse.findIdx? (fun c => c = '/') with
  | none => []
  | some k =>
    let head := cs.take (cs.length - k)
    if head.all (fun c => c = '/') then head
    else (head.reverse.dropWhile (fun c => c = '/')).reverse

/-- `os.path.dirname` of a POSIX path. -/
def dirname (p : String) : String := ⟨dirnameList p.data⟩

/-- The chain of directories `os.makedirs` brings into existence for a
target path: the path itself together with its parent chain, obtained by
iterating `dirname` (with fuel bounding the recursion) until it becomes
empty or stabilises. -/
def ancestorsAux : Nat → String → List String
  | 0, p => [p]
  | n + 1, p =>
    let d := dirname p
    if d = p ∨ d = "" then [p] else p :: ancestorsAux n d

/-- The directories created by `os.makedirs p`. -/
def ancestors (p : String) : List String := ancestorsAux p.length p

/-- A filesystem state: the set of existing regular-file paths and the
set of existing directory paths. -/
structure FS where
  files : List String
  dirs : List String
deriving DecidableEq, Repr

/-- `os.makedirs(p, exist_ok=True)` (line 24 of the script): the target
directory and all missing parents come into existence; directories that
already exist are left alone and cause no error. -/
def makedirs (p : String) (fs : FS) : FS :=
  { fs with dirs := ancestors p ++ fs.dirs }

/-- The error a failing move surfaces: Python raises a
`FileNotFoundError` when the source file, or the parent directory of
the destination, does not exist. -/
inductive MoveError where
  | notFound (path : String)
deriving DecidableEq, Repr

/-- `shutil.move src dst` in the situation this script uses it in (the
destination is never an existing directory): an `os.rename`, which
requires the source file to exist and the parent directory of the
destination to exist, removes the source path and makes the destination
path exist (overwriting any file already there).  Renaming a path to
itself succeeds and leaves the file in place. -/
def shutilMove (src dst : String) (fs : FS) : Except MoveError FS :=
  if src ∈ fs.files then
    if dirname dst ∈ fs.dirs then
      Except.ok { fs with files := dst :: fs.files.filter (fun q => q ≠ src) }
    else Except.error (MoveError.notFound dst)
  else Except.error (MoveError.notFound src)

/-- `move_files` (lines 4-17): for each file name in order, join it with
the source folder and with the destination folder and move it.  The
stateful loop is embedded by explicit state passing; an uncaught
exception is the `some`-error component, returned together with the
filesystem state at the moment of the failure. -/
def move_files : List String → String → String → FS → FS × Option MoveError
  | [], _, _, fs => (fs, none)
  | file_name :: rest, source_folder, destination_folder, fs =>
    let source_path := osPathJoin source_folder file_name
    let destination_path := osPathJoin destination_folder file_name
    match shutilMove source_path destination_path fs with
    | Except.ok fs' => move_files rest source_folder destination_folder fs'
    | Except.error e => (fs, some e)

/-- The file names for which `move_files` attempts a move, in the order
the attempts happen: the same loop as `move_files`, recording each name
whose `shutil.move` call is reached. -/
def moveAttempts : List String → String → String → FS → List String
  | [], _, _, _ => []
  | file_name :: rest, source_folder, destination_folder, fs =>
    let source_path := osPathJoin source_folder file_name
    let destination_path := osPathJoin destination_folder file_name
    match shutilMove source_path destination_path fs with
    | Except.ok fs' => file_name :: moveAttempts rest source_folder destination_folder fs'
    | Except.error _ => [file_name]

/-- The `__main__` block (lines 19-26), with the three hard-coded inputs
abstracted as parameters: create the destination directory (with
`exist_ok=True`), then call `move_files`. -/
def mainScript (file_list : List String) (source_folder destination_folder : String)
    (fs : FS) : FS × Option MoveError :=
  move_files file_list source_folder destination_folder (makedirs destination_folder fs)

/-! ### Shared lemmas about the embedding -/

/-- A move whose source file and destination parent directory exist
succeeds and rewrites the file set. -/
lemma shutilMove_ok (src dst : String) (fs : FS)
    (h1 : src ∈ fs.files) (h2 : dirname dst ∈ fs.dirs) :
    shutilMove src dst fs =
      Except.ok { fs with files := dst :: fs.files.filter (fun q => q ≠ src) } := by
  simp [shutilMove, h1, h2]

/-- A move whose source file is absent fails with `notFound` on the
source path. -/
lemma shutilMove_err_src (src dst : String) (fs : FS) (h : src ∉ fs.files) :
    shutilMove src dst fs = Except.error (MoveError.notFound src) := by
  simp [shutilMove, h]

/-- A move whose destination parent directory is absent fails with
`notFound` on the destination path. -/
lemma shutilMove_err_dir (src dst : String) (fs : FS)
    (h1 : src ∈ fs.files) (h2 : dirname dst ∉ fs.dirs) :
    shutilMove src dst fs = Except.error (MoveError.notFound dst) := by
  simp [shutilMove, h1, h2]

/-- Inversion for a successful move. -/
lemma shutilMove_ok_iff {src dst : String} {fs fs' : FS} :
    shutilMove src dst fs = Except.ok fs' ↔
      src ∈ fs.files ∧ dirname dst ∈ fs.dirs ∧
        fs' = { fs with files := dst :: fs.files.filter (fun q => q ≠ src) } := by
  unfold shutilMove
  constructor
  · intro h
    split at h
    · split at h
      · refine ⟨by assumption, by assumption, ?_⟩
        cases h
        rfl
      · cases h
    · cases h
  · rintro ⟨h1, h2, rfl⟩
    simp [h1, h2]

/-- Membership in the file set after one successful move. -/
lemma mem_move_step {p dst src : String} {fs : FS} :
    p ∈ dst :: fs.files.filter (fun q => q ≠ src) ↔
      p = dst ∨ (p ∈ fs.files ∧ p ≠ src) := by
  simp [List.mem_filter]

/-- `move_files` never touches the directory set, whether it succeeds
or aborts. -/
lemma move_files_dirs (l : List String) (s d : String) (fs : FS) :
    (move_files l s d fs).1.dirs = fs.dirs := by
  induction l generalizing fs with
  | nil => rfl
  | cons n t ih =>
    rw [move_files]
    cases h : shutilMove (osPathJoin s n) (osPathJoin d n) fs with
    | ok fs' =>
      have hd : fs'.dirs = fs.dirs := by
        rcases shutilMove_ok_iff.mp h with ⟨-, -, rfl⟩
        rfl
      simpa [hd] using ih fs'
    | error e => rfl

/-- Running `move_files` on an appended list runs the first part and,
if it succeeded, continues with the second part from the reached
state. -/
lemma move_files_append (l1 l2 : List String) (s d : String) (fs : FS) :
    move_files (l1 ++ l2) s d fs =
      match move_files l1 s d fs with
      | (fs1, none) => move_files l2 s d fs1
      | (fs1, some e) => (fs1, some e) := by
  induction l1 generalizing fs with
  | nil => simp [move_files]
  | cons n t ih =>
    rw [List.cons_append, move_files, move_files]
    cases h : shutilMove (osPathJoin s n) (osPathJoin d n) fs with
    | ok fs' => simpa using ih fs'
    | error e => rfl

/-- Frame lemma: a path that is neither a computed source path nor a
computed destination path of the run exists afterwards iff it existed
before, whether the run succeeds or aborts. -/
lemma move_files_files_outside (l : List String) (s d : String) (fs : FS) (p : String)
    (hs : p ∉ l.map (osPathJoin s)) (hd : p ∉ l.map (osPathJoin d)) :
    p ∈ (move_files l s d fs).1.files ↔ p ∈ fs.files := by
  induction l generalizing fs with
  | nil => exact Iff.rfl
  | cons n t ih =>
    have hsn : p ≠ osPathJoin s n := fun hq => hs (by simp [hq])
    have hdn : p ≠ osPathJoin d n := fun hq => hd (by simp [hq])
    have hs' : p ∉ t.map (osPathJoin s) := fun hq => hs (by simp [hq])
    have hd' : p ∉ t.map (osPathJoin d) := fun hq => hd (by simp [hq])
    rw [move_files]
    cases h : shutilMove (osPathJoin s n) (osPathJoin d n) fs with
    | ok fs' =>
      have hf : fs'.files = osPathJoin d n :: fs.files.filter (fun q => q ≠ osPathJoin s n) := by
        rcases shutilMove_ok_iff.mp h with ⟨-, -, rfl⟩
        rfl
      have hmem : p ∈ fs'.files ↔ p ∈ fs.files := by
        rw [hf, mem_move_step]
        simp [hdn, hsn]
      simpa using (ih fs' hs' hd').trans hmem
    | error e => exact Iff.rfl

/-- A path that is absent and is not a computed destination path of the
run stays absent. -/
lemma move_files_not_mem (l : List String) (s d : String) (fs : FS) (p : String)
    (hp : p ∉ fs.files) (hd : p ∉ l.map (osPathJoin d)) :
    p ∉ (move_files l s d fs).1.files := by
  induction l generalizing fs with
  | nil => exact hp
  | cons n t ih =>
    have hdn : p ≠ osPathJoin d n := fun hq => hd (by simp [hq])
    have hd' : p ∉ t.map (osPathJoin d) := fun hq => hd (by simp [hq])
    rw [move_files]
    cases h : shutilMove (osPathJoin s n) (osPathJoin d n) fs with
    | ok fs' =>
      have hf : fs'.files = osPathJoin d n :: fs.files.filter (fun q => q ≠ osPathJoin s n) := by
        rcases shutilMove_ok_iff.mp h with ⟨-, -, rfl⟩
        rfl
      have hp' : p ∉ fs'.files := by
        rw [hf, mem_move_step]
        rintro (rfl | ⟨hpf, -⟩)
        · exact hdn rfl
        · exact hp hpf
      simpa using ih fs' hp' hd'
    | error e => exact hp

/-- When every computed source path exists, every destination parent
directory exists, the source paths are pairwise distinct and no source
path coincides with a destination path, the whole run succeeds and the
final file set is the initial one with the source paths removed and the
destination paths added. -/
lemma move_files_run_ok (l : List String) (s d : String) (fs : FS)
    (hsrc : ∀ n ∈ l, osPathJoin s n ∈ fs.files)
    (hdst : ∀ n ∈ l, dirname (osPathJoin d n) ∈ fs.dirs)
    (hnodup : (l.map (osPathJoin s)).Nodup)
    (hdisj : ∀ n ∈ l, ∀ m ∈ l, osPathJoin s n ≠ osPathJoin d m) :
    ∃ fs', move_files l s d fs = (fs', none) ∧ fs'.dirs = fs.dirs ∧
      ∀ p, p ∈ fs'.files ↔
        p ∈ l.map (osPathJoin d) ∨ (p ∈ fs.files ∧ p ∉ l.map (osPathJoin s)) := by
  induction l generalizing fs with
  | nil => exact ⟨fs, rfl, rfl, by simp⟩
  | cons n t ih =>
    have hsn : osPathJoin s n ∈ fs.files := hsrc n (List.mem_cons_self n t)
    have hdn : dirname (osPathJoin d n) ∈ fs.dirs := hdst n (List.mem_cons_self n t)
    have hstep := shutilMove_ok (osPathJoin s n) (osPathJoin d n) fs hsn hdn
    set fs1 : FS :=
      { fs with files := osPathJoin d n :: fs.files.filter (fun q => q ≠ osPathJoin s n) }
      with hfs1
    have hnodup_head : osPathJoin s n ∉ t.map (osPathJoin s) := by
      rw [List.map_cons, List.nodup_cons] at hnodup
      exact hnodup.1
    have hnodup_tail : (t.map (osPathJoin s)).Nodup := by
      rw [List.map_cons, List.nodup_cons] at hnodup
      exact hnodup.2
    have hsrc1 : ∀ m ∈ t, osPathJoin s m ∈ fs1.files := by
      intro m hm
      have hne : osPathJoin s m ≠ osPathJoin s n := by
        intro hq
        exact hnodup_head (hq ▸ List.mem_map_of_mem (osPathJoin s) hm)
      exact mem_move_step.mpr (Or.inr ⟨hsrc m (List.mem_cons_of_mem n hm), hne⟩)
    have hdst1 : ∀ m ∈ t, dirname (osPathJoin d m) ∈ fs1.dirs := by
      intro m hm
      exact hdst m (List.mem_cons_of_mem n hm)
    have hdisj1 : ∀ a ∈ t, ∀ b ∈ t, osPathJoin s a ≠ osPathJoin d b := by
      intro a ha b hb
      exact hdisj a (List.mem_cons_of_mem n ha) b (List.mem_cons_of_mem n hb)
    obtain ⟨fs', hrun, hdirs, hchar⟩ := ih fs1 hsrc1 hdst1 hnodup_tail hdisj1
    refine ⟨fs', ?_, hdirs, ?_⟩
    · rw [move_files, hstep]
      exact hrun
    · intro p
      have hdnt : osPathJoin d n ∉ t.map (osPathJoin s) := by
        intro hq
        rcases List.mem_map.mp hq with ⟨m, hm, hqe⟩
        exact hdisj m (List.mem_cons_of_mem n hm) n (List.mem_cons_self n t) hqe
      have hmem1 : p ∈ fs1.files ↔ p = osPathJoin d n ∨ (p ∈ fs.files ∧ p ≠ osPathJoin s n) :=
        mem_move_step
      rw [hchar p, hmem1]
      simp only [List.map_cons, List.mem_cons]
      constructor
      · rintro (h | ⟨rfl | ⟨hpf, hpn⟩, hnt⟩)
        · exact Or.inl (Or.inr h)
        · exact Or.inl (Or.inl rfl)
        · exact Or.inr ⟨hpf, by simp [hpn, hnt]⟩
      · rintro ((rfl | h) | ⟨hpf, hnn⟩)
        · exact Or.inr ⟨Or.inl rfl, hdnt⟩
        · exact Or.inl h
        · simp only [not_or] at hnn
          exact Or.inr ⟨Or.inr ⟨hpf, hnn.1⟩, hnn.2⟩

/-- A path is the head of its own `makedirs` creation chain. -/
lemma self_mem_ancestors (p : String) : p ∈ ancestors p := by
  unfold ancestors
  cases hp : p.length with
  | zero => simp [ancestorsAux]
  | succ k =>
    rw [ancestorsAux]
    split
    · exact List.mem_singleton_self p
    · exact List.mem_cons_self p _

/-! ### Claims -/

/-- C1 (amended): if every computed source path exists in the initial
filesystem, every destination parent directory exists, the computed
source paths are pairwise distinct, and no computed source path equals
a computed destination path, then the relocation returns normally and
afterwards each listed file exists at the destination path and no
longer exists at the source path. -/
theorem move_files_success_moves_all (l : List String) (s d : String) (fs : FS)
    (hsrc : ∀ n ∈ l, osPathJoin s n ∈ fs.files)
    (hdst : ∀ n ∈ l, dirname (osPathJoin d n) ∈ fs.dirs)
    (hnodup : (l.map (osPathJoin s)).Nodup)
    (hdisj : ∀ n ∈ l, ∀ m ∈ l, osPathJoin s n ≠ osPathJoin d m) :
    ∃ fs', move_files l s d fs = (fs', none) ∧
      (∀ n ∈ l, osPathJoin d n ∈ fs'.files) ∧
      (∀ n ∈ l, osPathJoin s n ∉ fs'.files) := by
  obtain ⟨fs', hrun, -, hchar⟩ := move_files_run_ok l s d fs hsrc hdst hnodup hdisj
  refine ⟨fs', hrun, ?_, ?_⟩
  · intro n hn
    exact (hchar _).mpr (Or.inl (List.mem_map_of_mem _ hn))
  · intro n hn hmem
    rcases (hchar _).mp hmem with h | ⟨-, hns⟩
    · rcases List.mem_map.mp h with ⟨m, hm, hqe⟩
      exact hdisj n hn m hm hqe.symm
    · exact hns (List.mem_map_of_mem _ hn)

/-- Witness for C1's amended theorem at a concrete run. -/
theorem move_files_success_moves_all_witness :
    (move_files ["a"] "/s" "/d" (FS.mk ["/s/a"] ["/d"])).2 = none ∧
    osPathJoin "/d" "a" ∈ (move_files ["a"] "/s" "/d" (FS.mk ["/s/a"] ["/d"])).1.files ∧
    osPathJoin "/s" "a" ∉ (move_files ["a"] "/s" "/d" (FS.mk ["/s/a"] ["/d"])).1.files := by
  obtain ⟨fs', hrun, hin, hout⟩ :=
    move_files_success_moves_all ["a"] "/s" "/d" (FS.mk ["/s/a"] ["/d"])
      (by decide) (by decide) (by decide) (by decide)
  rw [hrun]
  exact ⟨rfl, hin "a" (by decide), hout "a" (by decide)⟩

/-- Counterexample to C1 as stated: in a filesystem where the single
listed filename `"a"` exists at the source directory and the
destination directory is present, the list `["a", "a"]` (duplicates
are allowed inputs) makes the run abort with `notFound` instead of
returning normally. -/
theorem move_files_duplicate_entry_fails :
    osPathJoin "/s" "a" ∈ (FS.mk ["/s/a"] ["/d"]).files ∧
    dirname (osPathJoin "/d" "a") ∈ (FS.mk ["/s/a"] ["/d"]).dirs ∧
    (move_files ["a", "a"] "/s" "/d" (FS.mk ["/s/a"] ["/d"])).2 =
      some (MoveError.notFound "/s/a") := by decide

/-- If the first `k` moves succeed and the file at position `k` is
absent from its computed source path at that moment, the run fails
there with `notFound` and computes the same thing as on the truncated
list. -/
lemma move_files_stops_at_missing (l : List String) (s d : String) (fs fsk : FS)
    (k : Nat) (hk : k < l.length)
    (hrun : move_files (l.take k) s d fs = (fsk, none))
    (hmiss : osPathJoin s l[k] ∉ fsk.files) :
    move_files l s d fs = (fsk, some (MoveError.notFound (osPathJoin s l[k]))) ∧
    move_files l s d fs = move_files (l.take (k + 1)) s d fs := by
  have hsplit : move_files (l.drop k) s d fsk =
      (fsk, some (MoveError.notFound (osPathJoin s l[k]))) := by
    rw [List.drop_eq_getElem_cons hk, move_files, shutilMove_err_src _ _ _ hmiss]
  have h1 : move_files l s d fs = (fsk, some (MoveError.notFound (osPathJoin s l[k]))) := by
    conv_lhs => rw [← List.take_append_drop k l]
    rw [move_files_append, hrun]
    exact hsplit
  refine ⟨h1, ?_⟩
  rw [h1]
  have htake : l.take (k + 1) = l.take k ++ [l[k]] := by
    rw [List.take_succ]
    simp [List.getElem?_eq_getElem hk]
  have h2 : move_files [l[k]] s d fsk =
      (fsk, some (MoveError.notFound (osPathJoin s l[k]))) := by
    rw [move_files, shutilMove_err_src _ _ _ hmiss]
  rw [htake, move_files_append, hrun]
  exact h2.symm

/-- C2: if the run reaches position `k` (the first `k` moves succeed)
and the filename at position `k` does not exist at its computed source
path at that moment, the whole run fails there with `notFound` on that
source path, the failure is propagated uncaught, and the run computes
exactly what it computes on the list truncated after position `k`:
no later filename is processed. -/
theorem move_files_aborts_at_missing (l : List String) (s d : String) (fs fsk : FS)
    (k : Nat) (hk : k < l.length)
    (hrun : move_files (l.take k) s d fs = (fsk, none))
    (hmiss : osPathJoin s l[k] ∉ fsk.files) :
    move_files l s d fs = (fsk, some (MoveError.notFound (osPathJoin s l[k]))) ∧
    move_files l s d fs = move_files (l.take (k + 1)) s d fs :=
  move_files_stops_at_missing l s d fs fsk k hk hrun hmiss

/-- Witness for C2 at a concrete run: the single listed file is missing
at position 0. -/
theorem move_files_aborts_at_missing_witness :
    move_files ["x"] "/s" "/d" (FS.mk [] ["/d"]) =
      (FS.mk [] ["/d"], some (MoveError.notFound (osPathJoin "/s" "x"))) ∧
    move_files ["x"] "/s" "/d" (FS.mk [] ["/d"]) =
      move_files (List.take 1 ["x"]) "/s" "/d" (FS.mk [] ["/d"]) :=
  move_files_aborts_at_missing ["x"] "/s" "/d" (FS.mk [] ["/d"]) (FS.mk [] ["/d"]) 0
    (by decide) rfl (by decide)

/-- C3: the entry point is exactly `makedirs` on the destination
directory followed by `move_files` (so creation happens before any move
is attempted); the destination directory and every ancestor in its
creation chain exist right after creation; creation changes nothing
(and raises nothing) when the chain already exists; and the destination
directory exists in the final state of every run, aborted or not. -/
theorem mainScript_creates_dest_dirs (l : List String) (s d : String) (fs : FS) :
    mainScript l s d fs = move_files l s d (makedirs d fs) ∧
    (∀ a ∈ ancestors d, a ∈ (makedirs d fs).dirs) ∧
    d ∈ (makedirs d fs).dirs ∧
    ((∀ a ∈ ancestors d, a ∈ fs.dirs) →
      ∀ x, x ∈ (makedirs d fs).dirs ↔ x ∈ fs.dirs) ∧
    d ∈ (mainScript l s d fs).1.dirs := by
  refine ⟨rfl, ?_, ?_, ?_, ?_⟩
  · intro a ha
    exact List.mem_append.mpr (Or.inl ha)
  · exact List.mem_append.mpr (Or.inl (self_mem_ancestors d))
  · intro hall x
    constructor
    · intro hx
      rcases List.mem_append.mp hx with h | h
      · exact hall x h
      · exact h
    · intro hx
      exact List.mem_append.mpr (Or.inr hx)
  · show d ∈ (move_files l s d (makedirs d fs)).1.dirs
    rw [move_files_dirs]
    exact List.mem_append.mpr (Or.inl (self_mem_ancestors d))

/-- Witness for C3: the no-op clause applied at a filesystem that
already has the destination chain. -/
theorem mainScript_creates_dest_dirs_witness :
    "/d" ∈ (makedirs "/d" (FS.mk [] ["/d", "/"])).dirs ↔
      "/d" ∈ (FS.mk [] ["/d", "/"]).dirs :=
  (mainScript_creates_dest_dirs [] "/s" "/d" (FS.mk [] ["/d", "/"])).2.2.2.1
    (by decide) "/d"

/-- C4 (amended): if the filename at position `k` is missing from its
computed source path while every filename before `k` exists at its
computed source path with its destination parent directory present,
and (as the duplicate counterexample forces) the source paths before
`k` are pairwise distinct and no source path at or before `k` equals a
destination path before `k`, then the run aborts at position `k` with
`notFound` and every filename before `k` has been moved: it exists at
its destination path and no longer at its source path.  Nothing is
rolled back and nothing is claimed about positions after `k`. -/
theorem move_files_partial_effect (l : List String) (s d : String) (fs : FS)
    (k : Nat) (hk : k < l.length)
    (hsrc : ∀ n ∈ l.take k, osPathJoin s n ∈ fs.files)
    (hdst : ∀ n ∈ l.take k, dirname (osPathJoin d n) ∈ fs.dirs)
    (hnodup : ((l.take k).map (osPathJoin s)).Nodup)
    (hdisj : ∀ n ∈ l.take k, ∀ m ∈ l.take k, osPathJoin s n ≠ osPathJoin d m)
    (hmiss : osPathJoin s l[k] ∉ fs.files)
    (hmiss2 : ∀ m ∈ l.take k, osPathJoin s l[k] ≠ osPathJoin d m) :
    ∃ fsk, move_files l s d fs = (fsk, some (MoveError.notFound (osPathJoin s l[k]))) ∧
      ∀ n ∈ l.take k, osPathJoin d n ∈ fsk.files ∧ osPathJoin s n ∉ fsk.files := by
  obtain ⟨fsk, hrun, -, hchar⟩ :=
    move_files_run_ok (l.take k) s d fs hsrc hdst hnodup hdisj
  have hmissk : osPathJoin s l[k] ∉ fsk.files := by
    intro hmem
    rcases (hchar _).mp hmem with h | ⟨hf, -⟩
    · rcases List.mem_map.mp h with ⟨m, hm, hqe⟩
      exact hmiss2 m hm hqe.symm
    · exact hmiss hf
  obtain ⟨h1, -⟩ := move_files_stops_at_missing l s d fs fsk k hk hrun hmissk
  refine ⟨fsk, h1, ?_⟩
  intro n hn
  constructor
  · exact (hchar _).mpr (Or.inl (List.mem_map_of_mem _ hn))
  · intro hmem
    rcases (hchar _).mp hmem with h | ⟨-, hns⟩
    · rcases List.mem_map.mp h with ⟨m, hm, hqe⟩
      exact hdisj n hn m hm hqe.symm
    · exact hns (List.mem_map_of_mem _ hn)

/-- Witness for C4's amended theorem: `"a"` exists, `"b"` is missing,
the run moves `"a"` and then aborts on `"b"`. -/
theorem move_files_partial_effect_witness :
    (move_files ["a", "b"] "/s" "/d" (FS.mk ["/s/a"] ["/d"])).2 =
      some (MoveError.notFound (osPathJoin "/s" "b")) ∧
    osPathJoin "/d" "a" ∈ (move_files ["a", "b"] "/s" "/d" (FS.mk ["/s/a"] ["/d"])).1.files ∧
    osPathJoin "/s" "a" ∉ (move_files ["a", "b"] "/s" "/d" (FS.mk ["/s/a"] ["/d"])).1.files := by
  obtain ⟨fsk, hrun, hmoved⟩ :=
    move_files_partial_effect ["a", "b"] "/s" "/d" (FS.mk ["/s/a"] ["/d"]) 1
      (by decide) (by decide) (by decide) (by decide) (by decide) (by decide) (by decide)
  rw [hrun]
  exact ⟨rfl, (hmoved "a" (by decide)).1, (hmoved "a" (by decide)).2⟩

/-- Counterexample to C4 as stated: with files `"a"` and `"c"` present
and `"b"` absent, the list `["a", "a", "c", "b"]` satisfies the claim's
premise (position 3 holds the first filename missing from the source
directory, every earlier filename exists there), yet after the aborted
run the earlier filename `"c"` has not been moved: the run stopped at
the duplicate second `"a"` before reaching `"c"`. -/
theorem move_files_duplicate_breaks_partial_effect :
    osPathJoin "/s" "a" ∈ (FS.mk ["/s/a", "/s/c"] ["/d"]).files ∧
    osPathJoin "/s" "c" ∈ (FS.mk ["/s/a", "/s/c"] ["/d"]).files ∧
    osPathJoin "/s" "b" ∉ (FS.mk ["/s/a", "/s/c"] ["/d"]).files ∧
    (move_files ["a", "a", "c", "b"] "/s" "/d" (FS.mk ["/s/a", "/s/c"] ["/d"])).2 ≠ none ∧
    osPathJoin "/d" "c" ∉
      (move_files ["a", "a", "c", "b"] "/s" "/d" (FS.mk ["/s/a", "/s/c"] ["/d"])).1.files ∧
    osPathJoin "/s" "c" ∈
      (move_files ["a", "a", "c", "b"] "/s" "/d" (FS.mk ["/s/a", "/s/c"] ["/d"])).1.files := by
  decide

/-- C5 (amended): the operation is not idempotent.  If a run over a
non-empty list succeeds and the first entry's computed source path
differs from every computed destination path, then running the
operation again from the reached state fails at the first entry with
`notFound`, because the file has already moved.  Moreover (duplicate
clause, concretely) a filename occurring twice in one list is processed
twice and the second occurrence fails with `notFound`. -/
theorem move_files_not_idempotent (l : List String) (s d : String) (fs fs1 : FS)
    (n0 : String) (t : List String) (hl : l = n0 :: t)
    (hrun : move_files l s d fs = (fs1, none))
    (hdisj : ∀ m ∈ l, osPathJoin s n0 ≠ osPathJoin d m) :
    move_files l s d fs1 = (fs1, some (MoveError.notFound (osPathJoin s n0))) ∧
    move_files ["a", "a"] "/s" "/d" (FS.mk ["/s/a"] ["/d"]) =
      (FS.mk ["/d/a"] ["/d"], some (MoveError.notFound "/s/a")) := by
  subst hl
  have hstep : ∃ fsA, shutilMove (osPathJoin s n0) (osPathJoin d n0) fs = Except.ok fsA ∧
      move_files t s d fsA = (fs1, none) := by
    rw [move_files] at hrun
    cases h : shutilMove (osPathJoin s n0) (osPathJoin d n0) fs with
    | ok fsA =>
      rw [h] at hrun
      exact ⟨fsA, rfl, hrun⟩
    | error e =>
      rw [h] at hrun
      simp at hrun
  obtain ⟨fsA, hA, hrest⟩ := hstep
  have hfA : fsA.files =
      osPathJoin d n0 :: fs.files.filter (fun q => q ≠ osPathJoin s n0) := by
    rcases shutilMove_ok_iff.mp hA with ⟨-, -, rfl⟩
    rfl
  have hs0A : osPathJoin s n0 ∉ fsA.files := by
    rw [hfA, mem_move_step]
    rintro (h | ⟨-, hne⟩)
    · exact hdisj n0 (List.mem_cons_self n0 t) h
    · exact hne rfl
  have hs0 : osPathJoin s n0 ∉ fs1.files := by
    have hnd : osPathJoin s n0 ∉ t.map (osPathJoin d) := by
      intro hq
      rcases List.mem_map.mp hq with ⟨m, hm, hqe⟩
      exact hdisj m (List.mem_cons_of_mem n0 hm) hqe.symm
    have := move_files_not_mem t s d fsA (osPathJoin s n0) hs0A hnd
    rw [hrest] at this
    exact this
  refine ⟨?_, by decide⟩
  rw [move_files, shutilMove_err_src _ _ _ hs0]

/-- Witness for C5's amended theorem: after `["a"]` has been moved, the
second run fails on `"a"`. -/
theorem move_files_not_idempotent_witness :
    move_files ["a"] "/s" "/d" (FS.mk ["/d/a"] ["/d"]) =
      (FS.mk ["/d/a"] ["/d"], some (MoveError.notFound (osPathJoin "/s" "a"))) ∧
    move_files ["a", "a"] "/s" "/d" (FS.mk ["/s/a"] ["/d"]) =
      (FS.mk ["/d/a"] ["/d"], some (MoveError.notFound "/s/a")) :=
  move_files_not_idempotent ["a"] "/s" "/d" (FS.mk ["/s/a"] ["/d"])
    (FS.mk ["/d/a"] ["/d"]) "a" [] rfl (by decide) (by decide)

/-- Counterexample to C5 as stated: when the destination folder equals
the source folder (which the claim's quantification does not exclude),
a non-empty list whose files all exist at the source directory moves
every file onto itself, and the second run succeeds as well instead of
failing with `notFound`. -/
theorem move_files_second_run_can_succeed :
    (["a"] : List String) ≠ [] ∧
    osPathJoin "/s" "a" ∈ (FS.mk ["/s/a"] ["/s"]).files ∧
    (move_files ["a"] "/s" "/s" (FS.mk ["/s/a"] ["/s"])).2 = none ∧
    (move_files ["a"] "/s" "/s"
      ((move_files ["a"] "/s" "/s" (FS.mk ["/s/a"] ["/s"])).1)).2 = none := by
  decide

/-- C6: the move attempts are performed strictly sequentially in the
order of the input list with no reordering: the attempted names always
form an initial segment `l.take m` of the input, and a run that returns
normally has attempted every name, in order. -/
theorem moveAttempts_in_input_order (l : List String) (s d : String) (fs : FS) :
    ∃ m, m ≤ l.length ∧ moveAttempts l s d fs = l.take m ∧
      ((move_files l s d fs).2 = none → moveAttempts l s d fs = l) := by
  induction l generalizing fs with
  | nil => exact ⟨0, Nat.le_refl 0, rfl, fun _ => rfl⟩
  | cons n t ih =>
    rw [moveAttempts, move_files]
    cases h : shutilMove (osPathJoin s n) (osPathJoin d n) fs with
    | ok fs' =>
      obtain ⟨m, hm, hatt, hsucc⟩ := ih fs'
      refine ⟨m + 1, Nat.succ_le_succ hm, ?_, ?_⟩
      · show n :: moveAttempts t s d fs' = (n :: t).take (m + 1)
        rw [List.take_succ_cons, hatt]
      · intro hnone
        show n :: moveAttempts t s d fs' = n :: t
        rw [hsucc hnone]
    | error e =>
      refine ⟨1, Nat.succ_le_succ (Nat.zero_le t.length), rfl, ?_⟩
      intro hnone
      exact Option.noConfusion (show (some e : Option MoveError) = none from hnone)

/-- Witness for C6: on a fully successful concrete run every name is
attempted in input order. -/
theorem moveAttempts_in_input_order_witness :
    moveAttempts ["a", "b"] "/s" "/d" (FS.mk ["/s/a", "/s/b"] ["/d"]) = ["a", "b"] := by
  obtain ⟨m, hm, hatt, hsucc⟩ :=
    moveAttempts_in_input_order ["a", "b"] "/s" "/d" (FS.mk ["/s/a", "/s/b"] ["/d"])
  exact hsucc (by decide)

/-- C7: on the empty file list the entry point creates (or confirms)
the destination directory chain, moves nothing, changes nothing else,
and finishes without error. -/
theorem mainScript_empty_list (s d : String) (fs : FS) :
    mainScript [] s d fs = (makedirs d fs, none) ∧
    (mainScript [] s d fs).2 = none ∧
    (mainScript [] s d fs).1.files = fs.files ∧
    ∀ x, x ∈ (mainScript [] s d fs).1.dirs ↔ x ∈ ancestors d ∨ x ∈ fs.dirs := by
  refine ⟨rfl, rfl, rfl, ?_⟩
  intro x
  show x ∈ ancestors d ++ fs.dirs ↔ _
  exact List.mem_append

/-- Witness for C7 at concrete inputs. -/
theorem mainScript_empty_list_witness :
    (mainScript [] "/s" "/d" (FS.mk ["/s/a"] [])).2 = none ∧
    ("/d" ∈ (mainScript [] "/s" "/d" (FS.mk ["/s/a"] [])).1.dirs ↔
      "/d" ∈ ancestors "/d" ∨ "/d" ∈ (FS.mk ["/s/a"] [] : FS).dirs) :=
  ⟨(mainScript_empty_list "/s" "/d" (FS.mk ["/s/a"] [])).2.1,
    (mainScript_empty_list "/s" "/d" (FS.mk ["/s/a"] [])).2.2.2 "/d"⟩

/-- C8 (frame property): over any run of the entry point, successful or
aborted, a path that is neither a computed source path nor a computed
destination path of the list exists afterwards iff it existed before,
and the directory set changes only by adding the destination creation
chain. -/
theorem move_files_frame_property (l : List String) (s d : String) (fs : FS)
    (p q : String)
    (hs : p ∉ l.map (osPathJoin s)) (hd : p ∉ l.map (osPathJoin d)) :
    (p ∈ (mainScript l s d fs).1.files ↔ p ∈ fs.files) ∧
    (q ∈ (mainScript l s d fs).1.dirs ↔ q ∈ ancestors d ∨ q ∈ fs.dirs) := by
  constructor
  · show p ∈ (move_files l s d (makedirs d fs)).1.files ↔ _
    rw [move_files_files_outside l s d (makedirs d fs) p hs hd]
    exact Iff.rfl
  · show q ∈ (move_files l s d (makedirs d fs)).1.dirs ↔ _
    rw [move_files_dirs]
    exact List.mem_append

/-- Witness for C8: a bystander file of the source directory survives a
concrete run, and only the destination chain is added to the
directories. -/
theorem move_files_frame_property_witness :
    ("/s/keep" ∈ (mainScript ["a"] "/s" "/d" (FS.mk ["/s/a", "/s/keep"] [])).1.files ↔
      "/s/keep" ∈ (FS.mk ["/s/a", "/s/keep"] [] : FS).files) ∧
    ("/x" ∈ (mainScript ["a"] "/s" "/d" (FS.mk ["/s/a", "/s/keep"] [])).1.dirs ↔
      "/x" ∈ ancestors "/d" ∨ "/x" ∈ (FS.mk ["/s/a", "/s/keep"] [] : FS).dirs) :=
  move_files_frame_property ["a"] "/s" "/d" (FS.mk ["/s/a", "/s/keep"] [])
    "/s/keep" "/x" (by decide) (by decide)

/-- C9: for a list entry that is an absolute path, `os.path.join`
discards both folder arguments, so the computed source and destination
paths both equal the entry itself; the resulting move renames the file
onto itself, which succeeds (the entry is not rejected) and leaves the
file where it was — it is not relocated at all. -/
theorem osPathJoin_absolute_entry (s d n : String) (fs : FS)
    (habs : beginsWithSep n = true) :
    osPathJoin s n = n ∧ osPathJoin d n = n ∧
    (n ∈ fs.files → dirname n ∈ fs.dirs →
      ∃ fs', shutilMove (osPathJoin s n) (osPathJoin d n) fs = Except.ok fs' ∧
        n ∈ fs'.files) := by
  have hj : ∀ a : String, osPathJoin a n = n := by
    intro a
    simp [osPathJoin, habs]
  refine ⟨hj s, hj d, ?_⟩
  intro hf hd
  refine ⟨{ fs with files := n :: fs.files.filter (fun q => q ≠ n) }, ?_, ?_⟩
  · rw [hj s, hj d]
    exact shutilMove_ok n n fs hf hd
  · exact List.mem_cons_self n _

/-- Witness for C9 at the absolute entry `"/x"`. -/
theorem osPathJoin_absolute_entry_witness :
    osPathJoin "/s" "/x" = "/x" ∧ osPathJoin "/d" "/x" = "/x" ∧
    (shutilMove (osPathJoin "/s" "/x") (osPathJoin "/d" "/x")
      (FS.mk ["/x"] ["/"])).toOption ≠ none := by
  obtain ⟨h1, h2, h3⟩ :=
    osPathJoin_absolute_entry "/s" "/d" "/x" (FS.mk ["/x"] ["/"]) (by decide)
  obtain ⟨fs', hok, -⟩ := h3 (by decide) (by decide)
  refine ⟨h1, h2, ?_⟩
  rw [hok]
  simp [Except.toOption]

/-- C10: `move_files` itself never creates a directory (the directory
set of the final state, successful or aborted, is the initial one), the
only directory creation is the `makedirs` the entry point performs
before the call, and calling `move_files` directly with a non-empty
list whose first destination parent directory is absent fails with a
`notFound`-class error while leaving the filesystem exactly as it
was. -/
theorem move_files_no_dir_creation (l : List String) (s d : String) (fs : FS) :
    (move_files l s d fs).1.dirs = fs.dirs ∧
    mainScript l s d fs = move_files l s d (makedirs d fs) ∧
    (∀ n0 t, l = n0 :: t → dirname (osPathJoin d n0) ∉ fs.dirs →
      ∃ p, move_files l s d fs = (fs, some (MoveError.notFound p))) := by
  refine ⟨move_files_dirs l s d fs, rfl, ?_⟩
  rintro n0 t rfl hdir
  by_cases hsrc : osPathJoin s n0 ∈ fs.files
  · refine ⟨osPathJoin d n0, ?_⟩
    rw [move_files, shutilMove_err_dir _ _ _ hsrc hdir]
  · refine ⟨osPathJoin s n0, ?_⟩
    rw [move_files, shutilMove_err_src _ _ _ hsrc]

/-- Witness for C10: a direct call with an absent destination directory
fails and changes nothing. -/
theorem move_files_no_dir_creation_witness :
    (move_files ["a"] "/s" "/d" (FS.mk ["/s/a"] [])).1.dirs = (FS.mk ["/s/a"] [] : FS).dirs ∧
    (move_files ["a"] "/s" "/d" (FS.mk ["/s/a"] [])).1.files = (FS.mk ["/s/a"] [] : FS).files ∧
    (move_files ["a"] "/s" "/d" (FS.mk ["/s/a"] [])).2 ≠ none := by
  obtain ⟨-, -, habort⟩ := move_files_no_dir_creation ["a"] "/s" "/d" (FS.mk ["/s/a"] [])
  obtain ⟨p, hp⟩ := habort "a" [] rfl (by decide)
  rw [hp]
  exact ⟨rfl, rfl, by simp⟩

end MoveFilesPy
